import Mathlib

/-!
Shallow embedding of clicklint (src/main.rs): a nom-based parser for a small
CREATE TABLE dialect, two lint rules, and the lint-runner loop from main.

Strings are modelled as lists of characters.  The nom combinators used by the
source — `tag`, `tag_no_case`, `take_until(" ")`, `is_a(" \t\r\n")`, `alt`,
`opt`, `separated_list0` — are embedded as functions on those lists; a
fallible parser returns `Option (residual × value)`, `none` standing for
nom's recoverable `Err::Error` (no `Err::Failure` arises in this program).
The `separated_list0` loop is embedded with explicit fuel (one unit per
iteration); the separator `tag(", ")` consumes two characters per round, so
`input length + 1` units always suffice, and a fuel-monotonicity lemma is
proved below.
-/

namespace Clicklint

abbrev Input := List Char

/-- nom `tag(t)` (complete): the input must start with the literal `t`;
consumes it and returns it. -/
def tag (t : List Char) (i : Input) : Option (Input × List Char) :=
  if i.take t.length = t then some (i.drop t.length, t) else none

/-- nom `tag_no_case(t)` (complete) for `&str`: case-insensitive prefix
match, consuming `t.length` characters of the input and returning them.
The comparison is modelled with `Char.toLower` (ASCII); for the two tags the
source uses (`"create table "`, `"if not exists"`, all ASCII letters and
spaces) this coincides with Rust's Unicode `to_lowercase` comparison, since
no other character lowercases onto those letters. -/
def tagNoCase (t : List Char) (i : Input) : Option (Input × List Char) :=
  if t.length ≤ i.length ∧ ∀ p ∈ t.zip i, p.1.toLower = p.2.toLower then
    some (i.drop t.length, i.take t.length)
  else none

/-- nom `take_until(" ")` (complete): returns the input up to (not
including) the first occurrence of `" "`, failing when there is none.  The
matched prefix may be empty. -/
def takeUntilSpace : Input → Option (Input × List Char)
  | [] => none
  | c :: cs =>
    if c = ' ' then some (c :: cs, [])
    else
      match takeUntilSpace cs with
      | none => none
      | some (j, nm) => some (j, c :: nm)

/-- Character class of nom `is_a(" \t\r\n")`. -/
def isWs (c : Char) : Bool := c == ' ' || c == '\t' || c == '\r' || c == '\n'

/-- nom `is_a(" \t\r\n")` (complete): longest prefix of characters from the
set, failing when that prefix is empty. -/
def isA_ws (i : Input) : Option (Input × List Char) :=
  if i.takeWhile isWs = [] then none else some (i.dropWhile isWs, i.takeWhile isWs)

structure Col where
  name : List Char
  col_type : List Char
deriving DecidableEq

/-- nom `alt((tag("Date"), tag("String")))` from `parse_col`. -/
def altDateString (i : Input) : Option (Input × List Char) :=
  match tag (String.data "Date") i with
  | some r => some r
  | none => tag (String.data "String") i

/-- `parse_col` from src/main.rs:
`take_until(" ")`, then `is_a(" \t\r\n")`, then `alt((tag("Date"), tag("String")))`. -/
def parse_col (i : Input) : Option (Input × Col) :=
  match takeUntilSpace i with
  | none => none
  | some (i1, nm) =>
    match isA_ws i1 with
    | none => none
    | some (i2, _) =>
      match altDateString i2 with
      | none => none
      | some (i3, ty) => some (i3, Col.mk nm ty)

/-- The `sep`-then-item loop of nom `separated_list0(tag(", "), parse_col)`,
entered after the first item has been parsed.  When the separator fails the
accumulated list is returned with the residual from before the separator;
when the separator succeeds but the item fails, the loop likewise returns
with the residual from before the separator.  The `i1.length = i.length`
branch is nom's infinite-loop guard (separator consumed nothing); it is dead
here because `tag(", ")` always consumes two characters.  Fuel only bounds
the iteration count; `sepCols` below supplies enough. -/
def sepColsLoop : Nat → Input → List Col → Option (Input × List Col)
  | 0, _, _ => none
  | fuel + 1, i, acc =>
    match tag (String.data ", ") i with
    | none => some (i, acc)
    | some (i1, _) =>
      if i1.length = i.length then none
      else
        match parse_col i1 with
        | none => some (i, acc)
        | some (i2, c) => sepColsLoop fuel i2 (acc ++ [c])

/-- nom `separated_list0(tag(", "), parse_col)`: first tries one item (an
item failure yields the empty list), then runs the separator/item loop. -/
def sepCols (i : Input) : Option (Input × List Col) :=
  match parse_col i with
  | none => some (i, [])
  | some (i1, c) => sepColsLoop (i1.length + 1) i1 [c]

structure Table where
  name : List Char
  columns : List Col
  if_not_exists : Bool
deriving DecidableEq

/-- nom `opt(p)`: an error from `p` is swallowed, consuming nothing. -/
def optP (p : Input → Option (Input × List Char)) (i : Input) :
    Input × Option (List Char) :=
  match p i with
  | some (j, m) => (j, some m)
  | none => (i, none)

/-- `parse_table` from src/main.rs:
`tag_no_case("create table ")`, `opt(tag_no_case("if not exists"))`,
`take_until(" ")` for the name, `tag(" ")`, `tag("(")`,
`separated_list0(tag(", "), parse_col)`, `tag(")")`. -/
def parse_table (i : Input) : Option (Input × Table) :=
  match tagNoCase (String.data "create table ") i with
  | none => none
  | some (i1, _) =>
    match optP (tagNoCase (String.data "if not exists")) i1 with
    | (i2, ine) =>
      match takeUntilSpace i2 with
      | none => none
      | some (i3, nm) =>
        match tag (String.data " ") i3 with
        | none => none
        | some (i4, _) =>
          match tag (String.data "(") i4 with
          | none => none
          | some (i5, _) =>
            match sepCols i5 with
            | none => none
            | some (i6, cols) =>
              match tag (String.data ")") i6 with
              | none => none
              | some (i7, _) => some (i7, Table.mk nm cols ine.isSome)

/-- Rust `char::len_utf8`: the UTF-8 encoded size of one character;
`str::len` is the sum of these over the string's characters. -/
def charBytes (c : Char) : Nat :=
  if c.toNat < 0x80 then 1
  else if c.toNat < 0x800 then 2
  else if c.toNat < 0x10000 then 3
  else 4

/-- Rust `str::len`: UTF-8 byte length. -/
def byteLen (s : List Char) : Nat := (s.map charBytes).sum

/-- Rust `format!("{}", n)` for an unsigned count: decimal digits. -/
def natRepr (k : Nat) : List Char := (Nat.repr k).data

/-- One line of the duplicate-columns diagnostic, newline included:
`format!("Duplicated column {} was encountered {} times.\n", name, count)`. -/
def dupLine (n : List Char) (k : Nat) : List Char :=
  String.data "Duplicated column " ++ n ++ String.data " was encountered "
    ++ natRepr k ++ String.data " times.\n"

/-- Multiplicity of a column name in a table: the value the source's
`HashMap` holds for key `n` after counting all columns. -/
def colCount (t : Table) (n : List Char) : Nat :=
  (t.columns.filter (fun c => c.name == n)).length

/-- `check_duplicate_col_names` from src/main.rs.  The source iterates a
`std::collections::HashMap` whose iteration order over the distinct column
names is unspecified; that order is made explicit here as the parameter
`ord`.  For every entry with multiplicity above one (in `ord` order) a
`dupLine` is appended to `errors`; the rule reports `none` exactly when
`errors` stayed empty. -/
def check_duplicate_col_names (ord : List (List Char)) (t : Table) :
    Option (List Char) :=
  let errors :=
    (ord.filter (fun n => 1 < colCount t n)).foldl
      (fun acc n => acc ++ dupLine n (colCount t n)) []
  if errors.length = 0 then none else some errors

/-- `ord` is a legitimate iteration order of the source's `HashMap` built
over `t`'s column names: it enumerates exactly the distinct column names,
each once. -/
def ValidOrd (ord : List (List Char)) (t : Table) : Prop :=
  ord.Nodup ∧ (∀ n ∈ ord, n ∈ t.columns.map Col.name) ∧
    (∀ n ∈ t.columns.map Col.name, n ∈ ord)

instance instDecidableValidOrd (ord : List (List Char)) (t : Table) :
    Decidable (ValidOrd ord t) :=
  decidable_of_iff
    (ord.Nodup ∧ (∀ n ∈ ord, n ∈ t.columns.map Col.name) ∧
      (∀ n ∈ t.columns.map Col.name, n ∈ ord)) Iff.rfl

/-- `check_table_name_is_not_short` from src/main.rs, with
`MIN_LENGTH = 5` and Rust's byte-length `t.name.len()`. -/
def check_table_name_is_not_short (t : Table) : Option (List Char) :=
  if byteLen t.name < 5 then
    some (String.data "Your table name '" ++ t.name
      ++ String.data "' is too short. We recommend at least "
      ++ natRepr 5 ++ String.data " characters.")
  else none

/-- One `println!("encountered error:\n\n{}", err)` call from main's linter
loop: the banner line, a blank line, the diagnostic, and the closing
newline. -/
def mkErrChunk (e : List Char) : List Char :=
  String.data "encountered error:\n\n" ++ e ++ String.data "\n"

/-- The `println!("Congrats! Your table looks fine")` output. -/
def congratsChunk : List Char := String.data "Congrats! Your table looks fine\n"

/-- The linter loop from `main`: iterate the rule list in order, printing a
banner chunk per diagnostic and tracking `did_find_issue`; print the
congratulations line only when no rule fired.  The result is the list of
printed chunks, in order. -/
def runLinters (linters : List (Table → Option (List Char))) (t : Table) :
    List (List Char) :=
  let r := linters.foldl
    (fun st linter =>
      match linter t with
      | some err => (true, st.2 ++ [mkErrChunk err])
      | none => st)
    ((false : Bool), ([] : List (List Char)))
  if r.1 then r.2 else r.2 ++ [congratsChunk]

/-- The fixed rule list from `main`:
`vec![check_duplicate_col_names, check_table_name_is_not_short]`, with the
hash-map iteration order of the first rule made explicit. -/
def mainLinters (ord : List (List Char)) : List (Table → Option (List Char)) :=
  [fun t => check_duplicate_col_names ord t, check_table_name_is_not_short]

/-- `sub` occurs contiguously inside `big`. -/
def containsSub (big sub : List Char) : Prop :=
  ∃ pre post, big = pre ++ sub ++ post

theorem zip_append_right_of_le {α β : Type} {t : List α} {j : List β} (r : List β)
    (h : t.length ≤ j.length) : t.zip (j ++ r) = t.zip j := by
  induction t generalizing j with
  | nil => simp
  | cons a t' ih =>
    cases j with
    | nil => simp at h
    | cons b j' =>
      simp only [List.cons_append, List.zip_cons_cons]
      rw [ih (by simpa using h)]

theorem mem_zip_append {α β : Type} {t : List α} {j r : List β}
    {p : α × β} (hp : p ∈ t.zip j) : p ∈ t.zip (j ++ r) := by
  induction t generalizing j with
  | nil => simp at hp
  | cons a t' ih =>
    cases j with
    | nil => simp [List.zip_nil_right] at hp
    | cons b j' =>
      simp only [List.cons_append, List.zip_cons_cons, List.mem_cons] at hp ⊢
      rcases hp with h | h
      · exact Or.inl h
      · exact Or.inr (ih h)

theorem tag_eq_some {t : List Char} {i j m : Input} (h : tag t i = some (j, m)) :
    i.take t.length = t ∧ j = i.drop t.length ∧ m = t := by
  unfold tag at h
  split at h
  · rename_i ht
    rw [Option.some.injEq, Prod.mk.injEq] at h
    exact ⟨ht, h.1.symm, h.2.symm⟩
  · cases h

theorem tag_eq_none {t : List Char} {i : Input} (h : tag t i = none) :
    i.take t.length ≠ t := by
  unfold tag at h
  split at h
  · cases h
  · assumption

theorem length_le_of_take_eq {t i : List Char} {n : Nat} (h : i.take n = t) :
    t.length ≤ i.length := by
  have := congrArg List.length h
  rw [List.length_take] at this
  omega

theorem tag_ext {t : List Char} {j j' m : Input} (r : Input)
    (h : tag t j = some (j', m)) : tag t (j ++ r) = some (j' ++ r, m) := by
  obtain ⟨ht, hj, hm⟩ := tag_eq_some h
  have hlen : t.length ≤ j.length := length_le_of_take_eq ht
  unfold tag
  rw [List.take_append_of_le_length hlen, ht, if_pos rfl,
    List.drop_append_of_le_length hlen, hj, hm]

theorem tag_none_ext {t : List Char} {j : Input} (r : Input)
    (h : tag t j = none) (hlen : t.length ≤ j.length) : tag t (j ++ r) = none := by
  have ht := tag_eq_none h
  unfold tag
  rw [List.take_append_of_le_length hlen, if_neg ht]

theorem tagNoCase_eq_some {t : List Char} {i j m : Input}
    (h : tagNoCase t i = some (j, m)) :
    t.length ≤ i.length ∧ (∀ p ∈ t.zip i, p.1.toLower = p.2.toLower) ∧
      j = i.drop t.length ∧ m = i.take t.length := by
  unfold tagNoCase at h
  split at h
  · rename_i ht
    rw [Option.some.injEq, Prod.mk.injEq] at h
    exact ⟨ht.1, ht.2, h.1.symm, h.2.symm⟩
  · cases h

theorem tagNoCase_ext {t : List Char} {j j' m : Input} (r : Input)
    (h : tagNoCase t j = some (j', m)) : tagNoCase t (j ++ r) = some (j' ++ r, m) := by
  obtain ⟨hlen, hz, hj, hm⟩ := tagNoCase_eq_some h
  unfold tagNoCase
  rw [zip_append_right_of_le r hlen]
  rw [if_pos ⟨le_trans hlen (by simp), hz⟩]
  rw [List.drop_append_of_le_length hlen, List.take_append_of_le_length hlen, hj, hm]

theorem tagNoCase_none_cases {t : List Char} {j : Input} (h : tagNoCase t j = none) :
    (∃ p ∈ t.zip j, p.1.toLower ≠ p.2.toLower) ∨ j.length < t.length := by
  unfold tagNoCase at h
  split at h
  · cases h
  · rename_i hcond
    rw [not_and_or] at hcond
    rcases hcond with hl | hz
    · exact Or.inr (by omega)
    · push_neg at hz
      exact Or.inl hz

theorem tagNoCase_none_ext_of_mismatch {t : List Char} {j : Input} (r : Input)
    (h : ∃ p ∈ t.zip j, p.1.toLower ≠ p.2.toLower) : tagNoCase t (j ++ r) = none := by
  obtain ⟨p, hp, hne⟩ := h
  unfold tagNoCase
  rw [if_neg]
  intro hcond
  exact hne (hcond.2 p (mem_zip_append hp))

theorem mem_lower_of_zip_all {t j : List Char}
    (hz : ∀ p ∈ t.zip j, p.1.toLower = p.2.toLower) (hlen : j.length ≤ t.length) :
    ∀ c ∈ j, ∃ c' ∈ t, c'.toLower = c.toLower := by
  induction t generalizing j with
  | nil =>
    cases j with
    | nil => simp
    | cons b j' => simp at hlen
  | cons a t' ih =>
    cases j with
    | nil => simp
    | cons b j' =>
      intro c hc
      rcases List.mem_cons.mp hc with rfl | hm
      · exact ⟨a, List.mem_cons_self a t', hz (a, c) (by simp)⟩
      · obtain ⟨c', hc', he⟩ := ih
          (fun p hp => hz p (List.mem_cons_of_mem _ hp)) (by simpa using hlen) c hm
        exact ⟨c', List.mem_cons_of_mem _ hc', he⟩

theorem takeUntilSpace_none_iff (i : Input) :
    takeUntilSpace i = none ↔ ∀ c ∈ i, c ≠ ' ' := by
  induction i with
  | nil => simp [takeUntilSpace]
  | cons c cs ih =>
    constructor
    · intro h c' hc'
      by_cases hc : c = ' '
      · subst hc
        rw [show takeUntilSpace (' ' :: cs) = some (' ' :: cs, []) from rfl] at h
        cases h
      · unfold takeUntilSpace at h
        rw [if_neg hc] at h
        rcases hcs : takeUntilSpace cs with _ | ⟨j, nm⟩ <;> rw [hcs] at h
        · rcases List.mem_cons.mp hc' with rfl | hm
          · exact hc
          · exact (ih.mp hcs) c' hm
        · cases h
    · intro hall
      have hc : c ≠ ' ' := hall c (List.mem_cons_self _ _)
      have hn : takeUntilSpace cs = none :=
        ih.mpr (fun c' hm => hall c' (List.mem_cons_of_mem _ hm))
      unfold takeUntilSpace
      rw [if_neg hc, hn]

theorem takeUntilSpace_eq_some {i j nm : Input} (h : takeUntilSpace i = some (j, nm)) :
    i = nm ++ j ∧ (∀ c ∈ nm, c ≠ ' ') ∧ j.take 1 = [' '] := by
  induction i generalizing j nm with
  | nil => cases h
  | cons c cs ih =>
    by_cases hc : c = ' '
    · subst hc
      rw [show takeUntilSpace (' ' :: cs) = some (' ' :: cs, []) from rfl] at h
      have h2 := Option.some.inj h
      injection h2 with hj hnm
      subst hj; subst hnm
      exact ⟨rfl, by simp, rfl⟩
    · unfold takeUntilSpace at h
      rw [if_neg hc] at h
      rcases hcs : takeUntilSpace cs with _ | ⟨j', nm'⟩ <;> rw [hcs] at h
      · cases h
      · have h2 := Option.some.inj h
        injection h2 with hj hnm
        subst hj; subst hnm
        obtain ⟨hi, hnm', hj'⟩ := ih hcs
        refine ⟨by rw [hi]; rfl, ?_, hj'⟩
        intro c' hc'
        rcases List.mem_cons.mp hc' with rfl | hm
        · exact hc
        · exact hnm' c' hm

theorem takeUntilSpace_of_decomp {j nm : Input} (hnm : ∀ c ∈ nm, c ≠ ' ')
    (hj : j.take 1 = [' ']) : takeUntilSpace (nm ++ j) = some (j, nm) := by
  induction nm with
  | nil =>
    cases j with
    | nil => cases hj
    | cons a j' =>
      have ha : a = ' ' := by
        rw [show (a :: j').take 1 = [a] from rfl] at hj
        injection hj with ha _
      subst ha
      rw [show ([] : Input) ++ ' ' :: j' = ' ' :: j' from rfl]
      rfl
  | cons c nm' ih =>
    have hc : c ≠ ' ' := hnm c (List.mem_cons_self _ _)
    have ih' := ih (fun c' hm => hnm c' (List.mem_cons_of_mem _ hm))
    rw [List.cons_append]
    unfold takeUntilSpace
    rw [if_neg hc, ih']

theorem takeUntilSpace_ext {i j nm : Input} (r : Input)
    (h : takeUntilSpace i = some (j, nm)) :
    takeUntilSpace (i ++ r) = some (j ++ r, nm) := by
  obtain ⟨hi, hnm, hj⟩ := takeUntilSpace_eq_some h
  have hjr : (j ++ r).take 1 = [' '] := by
    cases j with
    | nil => cases hj
    | cons a j' => simpa using hj
  rw [hi, List.append_assoc]
  exact takeUntilSpace_of_decomp hnm hjr

theorem isA_ws_eq_some {i j pre : Input} (h : isA_ws i = some (j, pre)) :
    j = i.dropWhile isWs ∧ pre = i.takeWhile isWs ∧ i.takeWhile isWs ≠ [] := by
  unfold isA_ws at h
  split at h
  · cases h
  · rename_i hne
    rw [Option.some.injEq, Prod.mk.injEq] at h
    exact ⟨h.1.symm, h.2.symm, hne⟩

theorem takeWhile_dropWhile_append {p : Char → Bool} {j : List Char} (r : List Char)
    (h : j.dropWhile p ≠ []) :
    (j ++ r).takeWhile p = j.takeWhile p ∧ (j ++ r).dropWhile p = j.dropWhile p ++ r := by
  induction j with
  | nil => simp at h
  | cons c cs ih =>
    cases hp : p c
    · simp [List.takeWhile_cons, List.dropWhile_cons, hp]
    · have h' : cs.dropWhile p ≠ [] := by
        simpa [List.dropWhile_cons, hp] using h
      obtain ⟨h1, h2⟩ := ih h'
      simp [List.takeWhile_cons, List.dropWhile_cons, hp, h1, h2]

theorem isA_ws_ext {i j pre : Input} (r : Input) (h : isA_ws i = some (j, pre))
    (hne : j ≠ []) : isA_ws (i ++ r) = some (j ++ r, pre) := by
  obtain ⟨hj, hpre, htw⟩ := isA_ws_eq_some h
  have hdw : i.dropWhile isWs ≠ [] := hj ▸ hne
  obtain ⟨h1, h2⟩ := takeWhile_dropWhile_append r hdw
  unfold isA_ws
  rw [h1, if_neg htw, h2, hj, hpre]

theorem altDateString_eq_some {i j ty : Input} (h : altDateString i = some (j, ty)) :
    (i.take 4 = String.data "Date" ∧ ty = String.data "Date" ∧ j = i.drop 4) ∨
    (i.take 4 ≠ String.data "Date" ∧ i.take 6 = String.data "String" ∧
      ty = String.data "String" ∧ j = i.drop 6) := by
  unfold altDateString at h
  rcases hd : tag (String.data "Date") i with _ | ⟨jd, md⟩ <;> rw [hd] at h
  · obtain ⟨h1, h2, h3⟩ := tag_eq_some h
    exact Or.inr ⟨tag_eq_none hd, h1, h3, h2⟩
  · rw [Option.some.injEq, Prod.mk.injEq] at h
    obtain ⟨h1, h2⟩ := h
    subst h1; subst h2
    obtain ⟨h1, h2, h3⟩ := tag_eq_some hd
    exact Or.inl ⟨h1, h3, h2⟩

theorem altDateString_ext {i j ty : Input} (r : Input)
    (h : altDateString i = some (j, ty)) : altDateString (i ++ r) = some (j ++ r, ty) := by
  unfold altDateString at h ⊢
  rcases hd : tag (String.data "Date") i with _ | ⟨jd, md⟩ <;> rw [hd] at h
  · have hs : tag (String.data "String") i = some (j, ty) := h
    obtain ⟨h1, _, _⟩ := tag_eq_some hs
    have hlen6 : (6 : Nat) ≤ i.length := by
      have := length_le_of_take_eq h1
      rw [show (String.data "String").length = 6 from rfl] at this
      exact this
    have hlen4 : (String.data "Date").length ≤ i.length := by
      rw [show (String.data "Date").length = 4 from rfl]
      omega
    rw [tag_none_ext r hd hlen4]
    exact tag_ext r hs
  · have h2 := Option.some.inj h
    injection h2 with hj hty
    subst hj; subst hty
    rw [tag_ext r hd]

theorem altDateString_ne_nil {i j ty : Input} (h : altDateString i = some (j, ty)) :
    i ≠ [] := by
  rcases altDateString_eq_some h with ⟨h1, _, _⟩ | ⟨_, h1, _, _⟩ <;>
    (intro hnil; subst hnil; cases h1)

theorem parse_col_ext {i j : Input} {c : Col} (r : Input)
    (h : parse_col i = some (j, c)) : parse_col (i ++ r) = some (j ++ r, c) := by
  unfold parse_col at h ⊢
  rcases h1 : takeUntilSpace i with _ | ⟨i1, nm⟩ <;> rw [h1] at h
  · cases h
  simp only [] at h
  rcases h2 : isA_ws i1 with _ | ⟨i2, pre⟩ <;> rw [h2] at h
  · cases h
  simp only [] at h
  rcases h3 : altDateString i2 with _ | ⟨i3, ty⟩ <;> rw [h3] at h
  · cases h
  simp only [] at h
  rw [takeUntilSpace_ext r h1]
  simp only []
  rw [isA_ws_ext r h2 (altDateString_ne_nil h3)]
  simp only []
  rw [altDateString_ext r h3]
  simp only []
  have h4 := Option.some.inj h
  injection h4 with hj hc
  subst hj; subst hc
  rfl

theorem sepColsLoop_mono : ∀ f g : Nat, f ≤ g → ∀ (i : Input) (acc : List Col) res,
    sepColsLoop f i acc = some res → sepColsLoop g i acc = some res := by
  intro f
  induction f with
  | zero => intro g _ i acc res h; cases h
  | succ f ih =>
    intro g hfg i acc res h
    cases g with
    | zero => omega
    | succ g' =>
      unfold sepColsLoop at h ⊢
      rcases ht : tag (String.data ", ") i with _ | ⟨i1, m⟩ <;> rw [ht] at h
      · exact h
      · simp only [] at h ⊢
        by_cases hl : i1.length = i.length
        · rw [if_pos hl] at h; cases h
        · rw [if_neg hl] at h ⊢
          rcases hp : parse_col i1 with _ | ⟨i2, c⟩ <;> rw [hp] at h
          · exact h
          · exact ih g' (by omega) _ _ _ h

theorem parse_col_ty {i j : Input} {c : Col} (h : parse_col i = some (j, c)) :
    c.col_type = String.data "Date" ∨ c.col_type = String.data "String" := by
  unfold parse_col at h
  rcases h1 : takeUntilSpace i with _ | ⟨i1, nm⟩ <;> rw [h1] at h
  · cases h
  simp only [] at h
  rcases h2 : isA_ws i1 with _ | ⟨i2, pre⟩ <;> rw [h2] at h
  · cases h
  simp only [] at h
  rcases h3 : altDateString i2 with _ | ⟨i3, ty⟩ <;> rw [h3] at h
  · cases h
  simp only [] at h
  have h4 := Option.some.inj h
  injection h4 with hj hc
  subst hc
  rcases altDateString_eq_some h3 with ⟨_, hty, _⟩ | ⟨_, _, hty, _⟩
  · exact Or.inl (by rw [hty])
  · exact Or.inr (by rw [hty])

theorem sepColsLoop_ty : ∀ (fuel : Nat) (i : Input) (acc : List Col) (i' : Input)
    (cs : List Col), sepColsLoop fuel i acc = some (i', cs) →
    (∀ c ∈ acc, c.col_type = String.data "Date" ∨ c.col_type = String.data "String") →
    ∀ c ∈ cs, c.col_type = String.data "Date" ∨ c.col_type = String.data "String" := by
  intro fuel
  induction fuel with
  | zero => intro i acc i' cs h; cases h
  | succ f ih =>
    intro i acc i' cs h hacc
    unfold sepColsLoop at h
    rcases ht : tag (String.data ", ") i with _ | ⟨i1, m⟩ <;> rw [ht] at h
    · have h2 := Option.some.inj h
      injection h2 with h2a h2b
      subst h2b
      exact hacc
    · simp only [] at h
      by_cases hl : i1.length = i.length
      · rw [if_pos hl] at h; cases h
      · rw [if_neg hl] at h
        rcases hp : parse_col i1 with _ | ⟨i2, c⟩ <;> rw [hp] at h
        · have h2 := Option.some.inj h
          injection h2 with h2a h2b
          subst h2b
          exact hacc
        · refine ih _ _ _ _ h ?_
          intro c' hc'
          rcases List.mem_append.mp hc' with hm | hm
          · exact hacc c' hm
          · rw [List.mem_singleton.mp hm]
            exact parse_col_ty hp

theorem sepCols_ty {i i' : Input} {cs : List Col} (h : sepCols i = some (i', cs)) :
    ∀ c ∈ cs, c.col_type = String.data "Date" ∨ c.col_type = String.data "String" := by
  unfold sepCols at h
  rcases hp : parse_col i with _ | ⟨i1, c⟩ <;> rw [hp] at h
  · have h2 := Option.some.inj h
    injection h2 with h2a h2b
    subst h2b
    intro c hc
    cases hc
  · simp only [] at h
    refine sepColsLoop_ty _ _ _ _ _ h ?_
    intro c' hc'
    rw [List.mem_singleton.mp hc']
    exact parse_col_ty hp

theorem sepColsLoop_ext (r : Input) : ∀ (fuel : Nat) (i : Input) (acc : List Col)
    (i' : Input) (cs : List Col), sepColsLoop fuel i acc = some (i', cs) →
    i'.take 1 = [')'] → sepColsLoop fuel (i ++ r) acc = some (i' ++ r, cs) := by
  intro fuel
  induction fuel with
  | zero => intro i acc i' cs h; cases h
  | succ f ih =>
    intro i acc i' cs h hp1
    unfold sepColsLoop at h ⊢
    rcases ht : tag (String.data ", ") i with _ | ⟨i1, m⟩ <;> rw [ht] at h
    · have h2 := Option.some.inj h
      injection h2 with h2a h2b
      have hi : i.take 1 = [')'] := by rw [h2a]; exact hp1
      obtain ⟨i2, hii⟩ : ∃ i2, i = ')' :: i2 := by
        cases i with
        | nil => exact absurd hi (by decide)
        | cons b i2 =>
          have hb : ([b] : Input) = [')'] := hi
          injection hb with hb' _
          exact ⟨i2, by rw [hb']⟩
      have htr : tag (String.data ", ") (i ++ r) = none := by
        rw [hii]
        unfold tag
        rw [if_neg]
        intro hcontra
        rw [show ((')' :: i2) ++ r).take (String.data ", ").length =
          ')' :: ((i2 ++ r).take 1) from rfl] at hcontra
        injection hcontra with hch _
        exact absurd hch (by decide)
      rw [htr, ← h2a, ← h2b]
    · simp only [] at h
      by_cases hl : i1.length = i.length
      · rw [if_pos hl] at h; cases h
      · rw [if_neg hl] at h
        rcases hp : parse_col i1 with _ | ⟨i2, c⟩ <;> rw [hp] at h
        · exfalso
          have h2 := Option.some.inj h
          injection h2 with h2a h2b
          have hi : i.take 1 = [')'] := by rw [h2a]; exact hp1
          obtain ⟨hta, _, _⟩ := tag_eq_some ht
          rw [show (String.data ", ").length = 2 from rfl] at hta
          cases i with
          | nil => exact absurd hi (by decide)
          | cons a i3 =>
            have ha : ([a] : Input) = [')'] := hi
            injection ha with ha' _
            cases i3 with
            | nil =>
              have hy : ([a] : Input) = [',', ' '] := hta
              injection hy with _ hy'
              cases hy'
            | cons b i4 =>
              have hx : ([a, b] : Input) = [',', ' '] := hta
              injection hx with hx' _
              rw [ha'] at hx'
              exact absurd hx' (by decide)
        · rw [tag_ext r ht]
          simp only []
          have hlen' : ¬ (i1 ++ r).length = (i ++ r).length := by
            rw [List.length_append, List.length_append]
            omega
          rw [if_neg hlen', parse_col_ext r hp]
          simp only []
          exact ih _ _ _ _ h hp1

theorem sepCols_ext {i : Input} {cs : List Col} (r : Input)
    (h : sepCols i = some ([')'], cs)) (hr : ∀ ch ∈ r, ch ≠ ' ') :
    sepCols (i ++ r) = some ([')'] ++ r, cs) := by
  unfold sepCols at h ⊢
  rcases hp : parse_col i with _ | ⟨i1, c⟩ <;> rw [hp] at h
  · have h2 := Option.some.inj h
    injection h2 with h2a h2b
    subst h2a; subst h2b
    have hn : takeUntilSpace ([')'] ++ r) = none := by
      apply (takeUntilSpace_none_iff _).mpr
      intro ch hch
      rcases List.mem_append.mp hch with hl | hrm
      · rw [List.mem_singleton.mp hl]; decide
      · exact hr ch hrm
    have hpn : parse_col ([')'] ++ r) = none := by
      unfold parse_col
      rw [hn]
    rw [hpn]
  · simp only [] at h
    rw [parse_col_ext r hp]
    simp only []
    have hext := sepColsLoop_ext r (i1.length + 1) _ _ _ _ h rfl
    refine sepColsLoop_mono (i1.length + 1) ((i1 ++ r).length + 1) ?_ _ _ _ hext
    rw [List.length_append]
    omega

theorem tag_prefix_append (t x : Input) : tag t (t ++ x) = some (x, t) := by
  unfold tag
  rw [List.take_append_of_le_length (le_refl t.length), List.take_length, if_pos rfl,
    List.drop_append_of_le_length (le_refl t.length), List.drop_length, List.nil_append]

theorem tagNoCase_exact (t p x : Input) (hlen : t.length = p.length)
    (hz : ∀ q ∈ t.zip p, q.1.toLower = q.2.toLower) :
    tagNoCase t (p ++ x) = some (x, p) := by
  unfold tagNoCase
  rw [zip_append_right_of_le x (le_of_eq hlen)]
  rw [if_pos ⟨by rw [List.length_append]; omega, hz⟩]
  rw [hlen, List.drop_append_of_le_length (le_refl _),
    List.take_append_of_le_length (le_refl _), List.drop_length, List.take_length,
    List.nil_append]

theorem optP_inx_ext {j a2 : Input} {ine : Option (List Char)} (r : Input)
    (ho : optP (tagNoCase (String.data "if not exists")) j = (a2, ine))
    (hparen : '(' ∈ j) :
    optP (tagNoCase (String.data "if not exists")) (j ++ r) = (a2 ++ r, ine) := by
  unfold optP at ho ⊢
  rcases hn : tagNoCase (String.data "if not exists") j with _ | ⟨x, m⟩ <;> rw [hn] at ho
  · injection ho with ho1 ho2
    subst ho1; subst ho2
    rcases tagNoCase_none_cases hn with hmis | hshort
    · rw [tagNoCase_none_ext_of_mismatch r hmis]
    · rcases hext : tagNoCase (String.data "if not exists") (j ++ r) with _ | ⟨y, my⟩
      · rfl
      · exfalso
        obtain ⟨_, hz, _, _⟩ := tagNoCase_eq_some hext
        have hzj : ∀ p ∈ (String.data "if not exists").zip j,
            p.1.toLower = p.2.toLower := fun p hp => hz p (mem_zip_append hp)
        obtain ⟨c', hc', he⟩ :=
          mem_lower_of_zip_all hzj (le_of_lt hshort) '(' hparen
        have hdec : ∀ c' ∈ String.data "if not exists", c'.toLower ≠ '('.toLower := by
          decide
        exact hdec c' hc' he
  · injection ho with ho1 ho2
    subst ho1; subst ho2
    rw [tagNoCase_ext r hn]

theorem parse_table_inv {i i' : Input} {T : Table} (h : parse_table i = some (i', T)) :
    ∃ (a1 a2 : Input) (ine : Option (List Char)) (m1 : List Char) (a3 a4 a5 a6 : Input)
      (m4 m5 m7 : List Char) (cols : List Col) (nm : List Char),
      tagNoCase (String.data "create table ") i = some (a1, m1) ∧
      optP (tagNoCase (String.data "if not exists")) a1 = (a2, ine) ∧
      takeUntilSpace a2 = some (a3, nm) ∧
      tag (String.data " ") a3 = some (a4, m4) ∧
      tag (String.data "(") a4 = some (a5, m5) ∧
      sepCols a5 = some (a6, cols) ∧
      tag (String.data ")") a6 = some (i', m7) ∧
      T = Table.mk nm cols ine.isSome := by
  unfold parse_table at h
  rcases h1 : tagNoCase (String.data "create table ") i with _ | ⟨a1, m1⟩ <;> rw [h1] at h
  · cases h
  simp only [] at h
  have ho : optP (tagNoCase (String.data "if not exists")) a1 =
      ((optP (tagNoCase (String.data "if not exists")) a1).1,
       (optP (tagNoCase (String.data "if not exists")) a1).2) := rfl
  rw [ho] at h
  simp only [] at h
  rcases h3 : takeUntilSpace (optP (tagNoCase (String.data "if not exists")) a1).1 with
    _ | ⟨a3, nm⟩ <;> rw [h3] at h
  · cases h
  simp only [] at h
  rcases h4 : tag (String.data " ") a3 with _ | ⟨a4, m4⟩ <;> rw [h4] at h
  · cases h
  simp only [] at h
  rcases h5 : tag (String.data "(") a4 with _ | ⟨a5, m5⟩ <;> rw [h5] at h
  · cases h
  simp only [] at h
  rcases h6 : sepCols a5 with _ | ⟨a6, cols⟩ <;> rw [h6] at h
  · cases h
  simp only [] at h
  rcases h7 : tag (String.data ")") a6 with _ | ⟨a7, m7⟩ <;> rw [h7] at h
  · cases h
  simp only [] at h
  have h8 := Option.some.inj h
  injection h8 with h8a h8b
  subst h8a
  exact ⟨a1, (optP (tagNoCase (String.data "if not exists")) a1).1,
    (optP (tagNoCase (String.data "if not exists")) a1).2, m1, a3, a4, a5, a6,
    m4, m5, m7, cols, nm, rfl, rfl, h3, h4, h5, h6, h7, h8b.symm⟩

theorem foldl_append_eq_flatten {α : Type} (f : α → List Char) :
    ∀ (l : List α) (init : List Char),
      List.foldl (fun acc x => acc ++ f x) init l = init ++ (l.map f).flatten := by
  intro l
  induction l with
  | nil => intro init; simp
  | cons x l' ih =>
    intro init
    rw [List.foldl_cons, ih, List.map_cons, List.flatten_cons, List.append_assoc]

theorem dupLine_ne_nil (n : List Char) (k : Nat) : dupLine n k ≠ [] := by
  intro h
  have h2 : ('D' :: (String.data "uplicated column " ++ n ++ String.data " was encountered "
    ++ natRepr k ++ String.data " times.\n") : List Char) = [] := h
  cases h2

theorem check_dup_errors (ord : List (List Char)) (t : Table) :
    (ord.filter (fun n => 1 < colCount t n)).foldl
        (fun acc n => acc ++ dupLine n (colCount t n)) [] =
      ((ord.filter (fun n => 1 < colCount t n)).map
        (fun n => dupLine n (colCount t n))).flatten := by
  rw [foldl_append_eq_flatten]
  rfl

theorem check_dup_none_iff (ord : List (List Char)) (t : Table) :
    check_duplicate_col_names ord t = none ↔ ∀ n ∈ ord, colCount t n ≤ 1 := by
  unfold check_duplicate_col_names
  simp only []
  rw [check_dup_errors]
  by_cases hf : ((ord.filter (fun n => 1 < colCount t n)).map
      (fun n => dupLine n (colCount t n))).flatten = []
  · rw [hf]
    rw [show List.length ([] : List Char) = 0 from rfl, if_pos rfl]
    constructor
    · intro _ n hn
      by_contra hgt
      have hfil : n ∈ ord.filter (fun n => 1 < colCount t n) := by
        rw [List.mem_filter]
        exact ⟨hn, by simp; omega⟩
      have hmem := List.mem_map_of_mem (fun n => dupLine n (colCount t n)) hfil
      have := (List.flatten_eq_nil_iff.mp hf) _ hmem
      exact dupLine_ne_nil n (colCount t n) this
    · intro _; rfl
  · rw [if_neg (by rw [List.length_eq_zero]; exact hf)]
    constructor
    · intro hc; cases hc
    · intro hall
      exfalso
      have hfil : ord.filter (fun n => 1 < colCount t n) = [] := by
        rw [List.filter_eq_nil_iff]
        intro n hn
        have := hall n hn
        simp
        omega
      rw [hfil] at hf
      exact hf rfl

theorem check_dup_some {ord : List (List Char)} {t : Table}
    (h : ¬ ((ord.filter (fun n => 1 < colCount t n)).map
      (fun n => dupLine n (colCount t n))).flatten = []) :
    check_duplicate_col_names ord t =
      some (((ord.filter (fun n => 1 < colCount t n)).map
        (fun n => dupLine n (colCount t n))).flatten) := by
  unfold check_duplicate_col_names
  simp only []
  rw [check_dup_errors, if_neg (by rw [List.length_eq_zero]; exact h)]

theorem colCount_eq_countP (t : Table) (n : List Char) :
    colCount t n = (t.columns.map Col.name).countP (fun x => x == n) := by
  unfold colCount
  rw [List.countP_map, List.countP_eq_length_filter]
  rfl

theorem nodup_countP_le_one {L : List (List Char)} (h : L.Nodup) (n : List Char) :
    L.countP (fun x => x == n) ≤ 1 := by
  induction L with
  | nil => simp
  | cons a L' ih =>
    rw [List.countP_cons]
    rcases List.nodup_cons.mp h with ⟨hna, hnd⟩
    by_cases ha : a = n
    · subst ha
      have hz : L'.countP (fun x => x == a) = 0 := by
        rw [List.countP_eq_zero]
        intro x hx
        simp only [beq_iff_eq]
        intro hxa
        exact hna (hxa ▸ hx)
      simp [hz]
    · have hb : (a == n) = false := beq_eq_false_iff_ne.mpr ha
      rw [hb]
      simpa using ih hnd

theorem containsSub_flatten {L : List (List Char)} {x : List Char} (h : x ∈ L) :
    containsSub L.flatten x := by
  induction L with
  | nil => cases h
  | cons y L' ih =>
    rcases List.mem_cons.mp h with rfl | hm
    · exact ⟨[], L'.flatten, by simp⟩
    · obtain ⟨pre, post, hd⟩ := ih hm
      exact ⟨y ++ pre, post, by simp [List.flatten_cons, hd, List.append_assoc]⟩

theorem mkErrChunk_ne_congrats (e : List Char) : mkErrChunk e ≠ congratsChunk := by
  intro h
  have h1 : (mkErrChunk e).take 1 = ['e'] := rfl
  rw [h] at h1
  exact absurd h1 (by decide)

/-- Claim C1 counterexample: the claim asserts that every accepted input yields a
Table with a non-empty name, but `parse_table` accepts
`"CREATE TABLE  (a Date)"` (two spaces after TABLE): `take_until(" ")` matches
the empty identifier in front of the second space, so the resulting Table has
the empty string as its name. -/
theorem c1_counterexample :
    parse_table (String.data "CREATE TABLE  (a Date)") =
      some ([], Table.mk [] [Col.mk (String.data "a") (String.data "Date")] false) ∧
    (Table.mk ([] : List Char) [Col.mk (String.data "a") (String.data "Date")] false).name
      = [] := by
  exact ⟨by decide, rfl⟩

/-- Claim C1 (amended): for every input string that `parse_table` accepts, every
column of the resulting Table has `col_type` equal to `"Date"` or `"String"`.
(The original claim additionally asserted the table name is non-empty, which
the counterexample refutes.) -/
theorem c1_amended_col_types : ∀ (i i' : Input) (T : Table),
    parse_table i = some (i', T) →
    ∀ c ∈ T.columns,
      c.col_type = String.data "Date" ∨ c.col_type = String.data "String" := by
  intro i i' T h
  obtain ⟨a1, a2, ine, m1, a3, a4, a5, a6, m4, m5, m7, cols, nm,
    _, _, _, _, _, h6, _, hT⟩ := parse_table_inv h
  rw [hT]
  exact sepCols_ty h6

/-- Witness for C1 (amended) at a concrete accepted input. -/
theorem c1_witness :
    parse_table (String.data "CREATE TABLE abcde (c Date)") =
      some ([], Table.mk (String.data "abcde")
        [Col.mk (String.data "c") (String.data "Date")] false) ∧
    ((Col.mk (String.data "c") (String.data "Date")).col_type = String.data "Date" ∨
      (Col.mk (String.data "c") (String.data "Date")).col_type = String.data "String") :=
  ⟨by decide,
    c1_amended_col_types (String.data "CREATE TABLE abcde (c Date)") []
      (Table.mk (String.data "abcde")
        [Col.mk (String.data "c") (String.data "Date")] false)
      (by decide) (Col.mk (String.data "c") (String.data "Date")) (by decide)⟩

/-- Claim C2 counterexample: the claim asserts `parse_col` errors when the
identifier run before the first space is empty, but `parse_col " Date"`
succeeds with an empty column name: `take_until(" ")` happily matches zero
characters. -/
theorem c2_counterexample :
    parse_col (String.data " Date") = some ([], Col.mk [] (String.data "Date")) := by
  decide

/-- Claim C2 (amended): `parse_col` fails exactly when the input contains no
space at all, or the token after the whitespace run that follows the (possibly
empty) identifier starts with neither `"Date"` nor `"String"`; in every other
case it returns a Column and the remaining cursor.  (The original claim's
"identifier run is empty" error case does not exist, and "no whitespace
follows" can only materialise as "no space anywhere in the input".) -/
theorem c2_amended_failure_iff (i : Input) :
    parse_col i = none ↔
      (∀ c ∈ i, c ≠ ' ') ∨
      (∃ nm j, i = nm ++ j ∧ (∀ c ∈ nm, c ≠ ' ') ∧ j.take 1 = [' '] ∧
        (j.dropWhile isWs).take 4 ≠ String.data "Date" ∧
        (j.dropWhile isWs).take 6 ≠ String.data "String") := by
  unfold parse_col
  rcases h1 : takeUntilSpace i with _ | ⟨j0, nm0⟩
  · constructor
    · intro _
      exact Or.inl ((takeUntilSpace_none_iff i).mp h1)
    · intro _; rfl
  · obtain ⟨hdec, hnm0, hj0⟩ := takeUntilSpace_eq_some h1
    obtain ⟨j00, rfl⟩ : ∃ j00, j0 = ' ' :: j00 := by
      cases j0 with
      | nil => exact absurd hj0 (by decide)
      | cons a j00 =>
        have ha : ([a] : Input) = [' '] := hj0
        injection ha with ha' _
        exact ⟨j00, by rw [ha']⟩
    have hisa : isA_ws (' ' :: j00) =
        some ((' ' :: j00).dropWhile isWs, (' ' :: j00).takeWhile isWs) := by
      unfold isA_ws
      rw [if_neg]
      intro hc
      have hc2 : (' ' :: j00.takeWhile isWs : List Char) = [] := hc
      cases hc2
    simp only []
    rw [hisa]
    simp only []
    rcases h3 : altDateString ((' ' :: j00).dropWhile isWs) with _ | ⟨i3, ty⟩
    · have hd : ((' ' :: j00).dropWhile isWs).take 4 ≠ String.data "Date" ∧
          ((' ' :: j00).dropWhile isWs).take 6 ≠ String.data "String" := by
        unfold altDateString at h3
        rcases hd4 : tag (String.data "Date") ((' ' :: j00).dropWhile isWs) with _ | y <;>
          rw [hd4] at h3
        · have h3' : tag (String.data "String") ((' ' :: j00).dropWhile isWs) = none := h3
          exact ⟨tag_eq_none hd4, tag_eq_none h3'⟩
        · cases h3
      constructor
      · intro _
        exact Or.inr ⟨nm0, ' ' :: j00, hdec, hnm0, rfl, hd.1, hd.2⟩
      · intro _; rfl
    · simp only []
      constructor
      · intro hc; cases hc
      · intro hrhs
        exfalso
        rcases hrhs with hall | ⟨nm', j', hdec', hnm', hj', hd4', hs6'⟩
        · exact (hall ' ' (by rw [hdec]; exact
            List.mem_append_right _ (List.mem_cons_self _ _))) rfl
        · have hcons := takeUntilSpace_of_decomp hnm' hj'
          rw [← hdec'] at hcons
          rw [h1] at hcons
          have hinj := Option.some.inj hcons
          injection hinj with hja hnma
          subst hja
          rcases altDateString_eq_some h3 with ⟨hta, _, _⟩ | ⟨_, hta, _, _⟩
          · exact hd4' hta
          · exact hs6' hta

/-- Witness for C2 (amended): a space-free input makes `parse_col` fail. -/
theorem c2_witness : parse_col (String.data "xyz") = none :=
  (c2_amended_failure_iff (String.data "xyz")).mpr (Or.inl (by decide))

/-- Claim C8: `"CREATE TABLE t ()"` is accepted, with an empty column list,
name `"t"`, `if_not_exists = false`, and nothing left over. -/
theorem c8_zero_columns :
    parse_table (String.data "CREATE TABLE t ()") =
      some ([], Table.mk (String.data "t") [] false) := by
  decide

/-- Claim C9: the keyword match is case-insensitive — the lowercase-keyword
input parses to exactly the same Table as the uppercase form. -/
theorem c9_case_insensitive :
    parse_table (String.data "create table longname (c String)") =
      some ([], Table.mk (String.data "longname")
        [Col.mk (String.data "c") (String.data "String")] false) ∧
    parse_table (String.data "CREATE TABLE longname (c String)") =
      some ([], Table.mk (String.data "longname")
        [Col.mk (String.data "c") (String.data "String")] false) := by
  exact ⟨by decide, by decide⟩

/-- Claim C10 counterexample: the claim asserts a parse error for every
non-empty space-free identifier `n`, but with `n = "()"` the input
`"CREATE TABLE IF NOT EXISTS () (c Date)"` is accepted: the empty name is
taken before the space, `tag("(")` consumes the first character of `n`, the
column list is empty, and `tag(")")` consumes the second character of `n`,
leaving `" (c Date)"` as unconsumed trailing input. -/
theorem c10_counterexample :
    (String.data "()" ≠ ([] : List Char)) ∧ (∀ c ∈ String.data "()", c ≠ ' ') ∧
    parse_table (String.data "CREATE TABLE IF NOT EXISTS " ++ String.data "()"
        ++ String.data " (" ++ String.data "c Date" ++ String.data ")") =
      some (String.data " (c Date)", Table.mk [] [] true) := by
  exact ⟨by decide, by decide, by decide⟩

/-- Claim C10 (amended): for every non-empty space-free identifier `n` whose
first character is not `'('`, and every body `b`, the input
`"CREATE TABLE IF NOT EXISTS " ++ n ++ " (" ++ b ++ ")"` is a parse error:
after the optional keyword is consumed the name recogniser takes the empty
run before the following space, so the `"("` match lands on `n` and fails. -/
theorem c10_amended_if_not_exists (n b : Input) (hne : n ≠ [])
    (hsp : ∀ c ∈ n, c ≠ ' ') (hpar : n.take 1 ≠ ['(']) :
    parse_table (String.data "CREATE TABLE IF NOT EXISTS " ++ n
      ++ String.data " (" ++ b ++ String.data ")") = none := by
  obtain ⟨c0, n', rfl⟩ : ∃ c0 n', n = c0 :: n' := by
    cases n with
    | nil => exact absurd rfl hne
    | cons c0 n' => exact ⟨c0, n', rfl⟩
  have hc0 : c0 ≠ '(' := by
    intro hcc
    exact hpar (by rw [hcc]; rfl)
  have hshape : String.data "CREATE TABLE IF NOT EXISTS " ++ (c0 :: n')
      ++ String.data " (" ++ b ++ String.data ")" =
      String.data "CREATE TABLE " ++ (String.data "IF NOT EXISTS"
        ++ (' ' :: (c0 :: (n' ++ String.data " (" ++ b ++ String.data ")")))) := by
    rw [show String.data "CREATE TABLE IF NOT EXISTS " =
      String.data "CREATE TABLE " ++ (String.data "IF NOT EXISTS" ++ [' ']) from rfl]
    simp [List.append_assoc]
  rw [hshape]
  unfold parse_table
  rw [tagNoCase_exact (String.data "create table ") (String.data "CREATE TABLE ")
    (String.data "IF NOT EXISTS" ++ (' ' :: (c0 :: (n' ++ String.data " ("
      ++ b ++ String.data ")")))) (by decide) (by decide)]
  simp only []
  unfold optP
  rw [tagNoCase_exact (String.data "if not exists") (String.data "IF NOT EXISTS")
    (' ' :: (c0 :: (n' ++ String.data " (" ++ b ++ String.data ")")))
    (by decide) (by decide)]
  simp only []
  rw [show takeUntilSpace (' ' :: (c0 :: (n' ++ String.data " ("
      ++ b ++ String.data ")"))) =
    some ((' ' :: (c0 :: (n' ++ String.data " (" ++ b ++ String.data ")"))), [])
    from rfl]
  simp only []
  rw [show tag (String.data " ") (' ' :: (c0 :: (n' ++ String.data " ("
      ++ b ++ String.data ")"))) =
    some ((c0 :: (n' ++ String.data " (" ++ b ++ String.data ")")), String.data " ")
    from rfl]
  simp only []
  have hfail : tag (String.data "(")
      (c0 :: (n' ++ String.data " (" ++ b ++ String.data ")")) = none := by
    unfold tag
    rw [if_neg]
    intro hcontra
    have hcc : ([c0] : Input) = ['('] := hcontra
    injection hcc with hcc' _
    exact hc0 hcc'
  rw [hfail]

/-- Witness for C10 (amended) at a concrete identifier and body. -/
theorem c10_witness :
    parse_table (String.data "CREATE TABLE IF NOT EXISTS " ++ String.data "foo"
      ++ String.data " (" ++ String.data "c Date" ++ String.data ")") = none :=
  c10_amended_if_not_exists (String.data "foo") (String.data "c Date")
    (by decide) (by decide) (by decide)

/-- Claim C6 counterexample: the claim asserts that appending any suffix to an
accepted input leaves the parse result unchanged with the suffix as residual,
but appending `" Date)x"` to the accepted `"CREATE TABLE t ()"` changes the
parse: the column parser now consumes the original `)` as a column name
(`") Date"` parses as a column), producing a different Table and residual
`"x"` instead of `" Date)x"`. -/
theorem c6_counterexample :
    parse_table (String.data "CREATE TABLE t ()") =
      some ([], Table.mk (String.data "t") [] false) ∧
    parse_table (String.data "CREATE TABLE t ()" ++ String.data " Date)x") =
      some (String.data "x", Table.mk (String.data "t")
        [Col.mk (String.data ")") (String.data "Date")] false) ∧
    Table.mk (String.data "t") [Col.mk (String.data ")") (String.data "Date")] false ≠
      Table.mk (String.data "t") [] false := by
  exact ⟨by decide, by decide, by decide⟩

/-- Claim C6 (amended): if `parse_table` accepts `s` with empty residual
producing `T`, then for every suffix `r` that contains no space character,
`parse_table (s ++ r)` succeeds, produces the same `T`, and leaves exactly `r`
unconsumed.  (Without the no-space restriction the claim fails: a space in
`r` can let the column parser swallow the closing parenthesis, as the
counterexample shows.) -/
theorem c6_amended_extension (s r : Input) (T : Table)
    (hs : parse_table s = some ([], T)) (hr : ∀ c ∈ r, c ≠ ' ') :
    parse_table (s ++ r) = some (r, T) := by
  obtain ⟨a1, a2, ine, m1, a3, a4, a5, a6, m4, m5, m7, cols, nm,
    h1, ho, h3, h4, h5, h6, h7, hT⟩ := parse_table_inv hs
  obtain ⟨ht7, ha7, hm7⟩ := tag_eq_some h7
  have ha6 : a6 = [')'] := by
    cases a6 with
    | nil => exact absurd ht7 (by decide)
    | cons b a6' =>
      have hb : ([b] : Input) = [')'] := ht7
      injection hb with hb' _
      have h7' : ([] : Input) = a6' := ha7
      rw [hb', ← h7']
  have hparen4 : '(' ∈ a4 := by
    obtain ⟨ht5, _, _⟩ := tag_eq_some h5
    have hmem : '(' ∈ a4.take (String.data "(").length := by
      rw [ht5]
      exact List.mem_cons_self _ _
    exact List.take_subset _ _ hmem
  have hparen2 : '(' ∈ a2 := by
    obtain ⟨_, ha4, _⟩ := tag_eq_some h4
    have hmem3 : '(' ∈ a3 := by
      rw [ha4] at hparen4
      exact List.drop_subset _ _ hparen4
    obtain ⟨he, _, _⟩ := takeUntilSpace_eq_some h3
    rw [he]
    exact List.mem_append_right _ hmem3
  have hparen1 : '(' ∈ a1 := by
    have ho' := ho
    unfold optP at ho'
    rcases hn : tagNoCase (String.data "if not exists") a1 with _ | ⟨x, mx⟩ <;>
      rw [hn] at ho'
    · injection ho' with hoa hob
      rw [hoa]
      exact hparen2
    · injection ho' with hoa hob
      obtain ⟨_, _, hx, _⟩ := tagNoCase_eq_some hn
      rw [← hoa, hx] at hparen2
      exact List.drop_subset _ _ hparen2
  unfold parse_table
  rw [tagNoCase_ext r h1]
  simp only []
  rw [optP_inx_ext r ho hparen1]
  simp only []
  rw [takeUntilSpace_ext r h3]
  simp only []
  rw [tag_ext r h4]
  simp only []
  rw [tag_ext r h5]
  simp only []
  rw [sepCols_ext r (ha6 ▸ h6) hr]
  simp only []
  rw [show tag (String.data ")") ([')'] ++ r) = some (r, String.data ")") from
    tag_prefix_append (String.data ")") r]
  simp only []
  rw [hT]

/-- Witness for C6 (amended) at a concrete accepted input and suffix. -/
theorem c6_witness :
    parse_table (String.data "CREATE TABLE t ()") =
      some ([], Table.mk (String.data "t") [] false) ∧
    (∀ c ∈ String.data "abc", c ≠ ' ') ∧
    parse_table (String.data "CREATE TABLE t ()" ++ String.data "abc") =
      some (String.data "abc", Table.mk (String.data "t") [] false) :=
  ⟨by decide, by decide,
    c6_amended_extension (String.data "CREATE TABLE t ()") (String.data "abc")
      (Table.mk (String.data "t") [] false) (by decide) (by decide)⟩

/-- Claim C3: for every Table and the fixed rule list (R1 then R2, under any
hash-map iteration order `ord` for R1), the runner prints the congratulations
line exactly once when both rules return no diagnostic and zero times when at
least one returns a diagnostic; and the full output is one banner chunk
(`"encountered error:"`, blank line, diagnostic) per firing rule, in rule
order, followed by the congratulations line only in the clean case — both
rules are always invoked, with no early termination. -/
theorem c3_runner_output (ord : List (List Char)) (t : Table) :
    ((check_duplicate_col_names ord t = none ∧ check_table_name_is_not_short t = none) →
      List.count congratsChunk (runLinters (mainLinters ord) t) = 1) ∧
    ((check_duplicate_col_names ord t ≠ none ∨ check_table_name_is_not_short t ≠ none) →
      List.count congratsChunk (runLinters (mainLinters ord) t) = 0) ∧
    runLinters (mainLinters ord) t =
      ((mainLinters ord).filterMap (fun l => Option.map mkErrChunk (l t))) ++
      (if check_duplicate_col_names ord t = none ∧ check_table_name_is_not_short t = none
        then [congratsChunk] else []) := by
  rcases h1 : check_duplicate_col_names ord t with _ | e1 <;>
    rcases h2 : check_table_name_is_not_short t with _ | e2
  · refine ⟨fun _ => ?_, fun hcon => ?_, ?_⟩
    · unfold runLinters mainLinters
      simp [h1, h2, List.count_cons]
    · rcases hcon with hc | hc <;> exact absurd rfl hc
    · unfold runLinters mainLinters
      simp [h1, h2]
  · refine ⟨fun hcc => ?_, fun _ => ?_, ?_⟩
    · exact absurd hcc.2 (by simp)
    · unfold runLinters mainLinters
      simp [h1, h2, List.count_cons, mkErrChunk_ne_congrats e2]
    · unfold runLinters mainLinters
      simp [h1, h2]
  · refine ⟨fun hcc => ?_, fun _ => ?_, ?_⟩
    · exact absurd hcc.1 (by simp)
    · unfold runLinters mainLinters
      simp [h1, h2, List.count_cons, mkErrChunk_ne_congrats e1]
    · unfold runLinters mainLinters
      simp [h1, h2]
  · refine ⟨fun hcc => ?_, fun _ => ?_, ?_⟩
    · exact absurd hcc.1 (by simp)
    · unfold runLinters mainLinters
      simp [h1, h2, List.count_cons, mkErrChunk_ne_congrats e1,
        mkErrChunk_ne_congrats e2]
    · unfold runLinters mainLinters
      simp [h1, h2]

/-- Witness for C3 at a concrete clean table. -/
theorem c3_witness :
    (check_duplicate_col_names [String.data "a"] (Table.mk (String.data "abcde")
        [Col.mk (String.data "a") (String.data "Date")] false) = none ∧
      check_table_name_is_not_short (Table.mk (String.data "abcde")
        [Col.mk (String.data "a") (String.data "Date")] false) = none) ∧
    List.count congratsChunk (runLinters (mainLinters [String.data "a"])
      (Table.mk (String.data "abcde")
        [Col.mk (String.data "a") (String.data "Date")] false)) = 1 :=
  ⟨by decide,
    (c3_runner_output [String.data "a"] (Table.mk (String.data "abcde")
      [Col.mk (String.data "a") (String.data "Date")] false)).1 (by decide)⟩

/-- Claim C4: under any legitimate hash-map iteration order, R1 returns no
diagnostic for a table with pairwise-distinct column names, and whenever some
name has multiplicity above one, R1 returns a diagnostic containing, for each
such name, its newline-terminated
`"Duplicated column <name> was encountered <count> times."` line. -/
theorem c4_duplicate_rule (ord : List (List Char)) (t : Table) (hord : ValidOrd ord t) :
    ((t.columns.map Col.name).Nodup → check_duplicate_col_names ord t = none) ∧
    (∀ n, 1 < colCount t n →
      check_duplicate_col_names ord t ≠ none ∧
      containsSub ((check_duplicate_col_names ord t).getD [])
        (dupLine n (colCount t n))) := by
  obtain ⟨hnd, hsub, hsup⟩ := hord
  constructor
  · intro hnodup
    rw [check_dup_none_iff]
    intro n _
    rw [colCount_eq_countP]
    exact nodup_countP_le_one hnodup n
  · intro n hcnt
    have hmem : n ∈ t.columns.map Col.name := by
      have hpos : 0 < (t.columns.map Col.name).countP (fun x => x == n) := by
        rw [← colCount_eq_countP]
        omega
      obtain ⟨x, hx, hxe⟩ := List.countP_pos_iff.mp hpos
      have hxn : x = n := by simpa using hxe
      exact hxn ▸ hx
    have hordn : n ∈ ord := hsup n hmem
    have hfil : n ∈ ord.filter (fun n => 1 < colCount t n) := by
      rw [List.mem_filter]
      refine ⟨hordn, ?_⟩
      simp only [decide_eq_true_eq]
      omega
    have hmapmem := List.mem_map_of_mem (fun n => dupLine n (colCount t n)) hfil
    have hfne : ¬ ((ord.filter (fun n => 1 < colCount t n)).map
        (fun n => dupLine n (colCount t n))).flatten = [] := by
      intro hc
      exact dupLine_ne_nil n (colCount t n) ((List.flatten_eq_nil_iff.mp hc) _ hmapmem)
    have hres := check_dup_some hfne
    refine ⟨by rw [hres]; simp, ?_⟩
    rw [hres]
    exact containsSub_flatten hmapmem

/-- Witness for C4 at a concrete table with a duplicated column name. -/
theorem c4_witness :
    1 < colCount (Table.mk (String.data "abcde")
      [Col.mk (String.data "x") (String.data "Date"),
       Col.mk (String.data "x") (String.data "String")] false) (String.data "x") ∧
    check_duplicate_col_names [String.data "x"] (Table.mk (String.data "abcde")
      [Col.mk (String.data "x") (String.data "Date"),
       Col.mk (String.data "x") (String.data "String")] false) ≠ none ∧
    containsSub ((check_duplicate_col_names [String.data "x"]
        (Table.mk (String.data "abcde")
          [Col.mk (String.data "x") (String.data "Date"),
           Col.mk (String.data "x") (String.data "String")] false)).getD [])
      (dupLine (String.data "x") (colCount (Table.mk (String.data "abcde")
        [Col.mk (String.data "x") (String.data "Date"),
         Col.mk (String.data "x") (String.data "String")] false) (String.data "x"))) :=
  ⟨by decide,
    (c4_duplicate_rule [String.data "x"] (Table.mk (String.data "abcde")
      [Col.mk (String.data "x") (String.data "Date"),
       Col.mk (String.data "x") (String.data "String")] false)
      (by decide)).2 (String.data "x") (by decide)⟩

/-- Claim C5: R2 returns exactly the
`"Your table name '<name>' is too short. We recommend at least 5 characters."`
diagnostic iff the byte length of the table name is strictly below 5, and
`none` otherwise. -/
theorem c5_name_length_rule (t : Table) :
    (byteLen t.name < 5 → check_table_name_is_not_short t =
      some (String.data "Your table name '" ++ t.name
        ++ String.data "' is too short. We recommend at least 5 characters.")) ∧
    (5 ≤ byteLen t.name → check_table_name_is_not_short t = none) := by
  constructor
  · intro h
    unfold check_table_name_is_not_short
    rw [if_pos h]
    simp only [List.append_assoc]
    rw [show String.data "' is too short. We recommend at least " ++
      (natRepr 5 ++ String.data " characters.") =
      String.data "' is too short. We recommend at least 5 characters." by decide]
  · intro h
    unfold check_table_name_is_not_short
    rw [if_neg (by omega)]

/-- Witness for C5 at a concrete short-named table. -/
theorem c5_witness :
    byteLen (String.data "t") < 5 ∧
    check_table_name_is_not_short (Table.mk (String.data "t") [] false) =
      some (String.data "Your table name '" ++ String.data "t"
        ++ String.data "' is too short. We recommend at least 5 characters.") :=
  ⟨by decide, (c5_name_length_rule (Table.mk (String.data "t") [] false)).1 (by decide)⟩

/-- Claim C7 counterexample: R1's diagnostic string depends on the hash map's
iteration order, which Rust's `HashMap` does not fix (each map instance uses
fresh random hash keys, so two invocations may enumerate the two duplicated
names in opposite orders).  Both orders below are legitimate enumerations of
the distinct column names, yet the diagnostic strings differ, refuting
"invoking the same rule twice yields identical diagnostic strings". -/
theorem c7_counterexample :
    ValidOrd [String.data "x", String.data "y"] (Table.mk (String.data "abcde")
      [Col.mk (String.data "x") (String.data "Date"),
       Col.mk (String.data "x") (String.data "Date"),
       Col.mk (String.data "y") (String.data "Date"),
       Col.mk (String.data "y") (String.data "Date")] false) ∧
    ValidOrd [String.data "y", String.data "x"] (Table.mk (String.data "abcde")
      [Col.mk (String.data "x") (String.data "Date"),
       Col.mk (String.data "x") (String.data "Date"),
       Col.mk (String.data "y") (String.data "Date"),
       Col.mk (String.data "y") (String.data "Date")] false) ∧
    check_duplicate_col_names [String.data "x", String.data "y"]
        (Table.mk (String.data "abcde")
          [Col.mk (String.data "x") (String.data "Date"),
           Col.mk (String.data "x") (String.data "Date"),
           Col.mk (String.data "y") (String.data "Date"),
           Col.mk (String.data "y") (String.data "Date")] false) ≠
      check_duplicate_col_names [String.data "y", String.data "x"]
        (Table.mk (String.data "abcde")
          [Col.mk (String.data "x") (String.data "Date"),
           Col.mk (String.data "x") (String.data "Date"),
           Col.mk (String.data "y") (String.data "Date"),
           Col.mk (String.data "y") (String.data "Date")] false) := by
  exact ⟨by decide, by decide, by decide⟩

/-- Claim C7 (amended): R2 is a pure function of the Table, and R1 is a pure
function of the Table together with the hash-map iteration order; moreover
whether R1 reports a diagnostic at all is independent of the iteration order
(only the concatenation order of the lines can differ across two legitimate
orders, as the counterexample shows). -/
theorem c7_amended_order_invariance (t : Table) (ord1 ord2 : List (List Char))
    (h1 : ValidOrd ord1 t) (h2 : ValidOrd ord2 t) :
    (check_duplicate_col_names ord1 t = none ↔
      check_duplicate_col_names ord2 t = none) ∧
    check_table_name_is_not_short t = check_table_name_is_not_short t := by
  refine ⟨?_, rfl⟩
  rw [check_dup_none_iff, check_dup_none_iff]
  constructor
  · intro ha n hn
    exact ha n (h1.2.2 n (h2.2.1 n hn))
  · intro ha n hn
    exact ha n (h2.2.2 n (h1.2.1 n hn))

/-- Witness for C7 (amended) at the two concrete iteration orders of the
counterexample table. -/
theorem c7_witness :
    (check_duplicate_col_names [String.data "x", String.data "y"]
        (Table.mk (String.data "abcde")
          [Col.mk (String.data "x") (String.data "Date"),
           Col.mk (String.data "x") (String.data "Date"),
           Col.mk (String.data "y") (String.data "Date"),
           Col.mk (String.data "y") (String.data "Date")] false) = none ↔
      check_duplicate_col_names [String.data "y", String.data "x"]
        (Table.mk (String.data "abcde")
          [Col.mk (String.data "x") (String.data "Date"),
           Col.mk (String.data "x") (String.data "Date"),
           Col.mk (String.data "y") (String.data "Date"),
           Col.mk (String.data "y") (String.data "Date")] false) = none) :=
  (c7_amended_order_invariance (Table.mk (String.data "abcde")
      [Col.mk (String.data "x") (String.data "Date"),
       Col.mk (String.data "x") (String.data "Date"),
       Col.mk (String.data "y") (String.data "Date"),
       Col.mk (String.data "y") (String.data "Date")] false)
    [String.data "x", String.data "y"] [String.data "y", String.data "x"]
    (by decide) (by decide)).1

end Clicklint
